import Mathlib

/-!
A verification development for the `envconfig` configuration library.

This file gives a shallow embedding, in Lean 4, of the core of the
`envconfig` Go library: derivation of environment-variable key spellings
from structural field paths (`fieldName.Keys`), tag parsing (`parseTag`),
the structural walk (`readStruct`), and the read/convert phase
(`Field.readValue`, `Field.setField`, `ConfInfo.Read`, `Field.parseValue`,
`Field.parseStruct`).

Modelling conventions:
* Go strings are modelled as Lean `String`/`List Char`.  All strings that
  occur in this development are ASCII, where Go's byte indexing, rune
  iteration and `unicode.IsUpper`/`IsLower`/`strings.ToLower`/`ToUpper`
  coincide with Lean's character-level operations.
* `os.Getenv` is modelled as an explicit environment `String → String`
  (Go returns `""` for unset variables).
* Functions that can return a Go `error` return `Except String _` or carry
  an explicit error component; a Go runtime panic (out-of-range slice
  index) is modelled by an explicit `panic` result constructor.
-/

namespace Envconfig

/-- `fieldName` from the source: an ordered list of structural names. -/
abbrev fieldName := List String

/-- The `prevOrNextLower` condition computed inside the rune loop of
`fieldName.Keys`:
`i+1 < len(n) && i-1 > 0 && (unicode.IsLower(n[i+1]) || unicode.IsLower(n[i-1]))`.
Go's `i-1 > 0` on ints coincides with Nat truncated subtraction here since
`i ≥ 0`.  The `getD` defaults are irrelevant: both accesses are guarded by
the corresponding bounds test. -/
def prevOrNextLower (n : List Char) (i : Nat) : Bool :=
  decide (i + 1 < n.length) && decide (i - 1 > 0) &&
    ((n.getD (i + 1) ' ').isLower || (n.getD (i - 1) ' ').isLower)

/-- The guard of the underscore insertion in `fieldName.Keys`:
`i > 0 && unicode.IsUpper(r) && prevOrNextLower`. -/
def insertBoundary (n : List Char) (i : Nat) (r : Char) : Bool :=
  decide (i > 0) && r.isUpper && prevOrNextLower n i

/-- The rune loop of `fieldName.Keys` writing one path segment into `buf`
(the word-boundary buffer): `buf` accumulates, `i` is the current index,
the last argument is the remaining suffix of the segment `n`. -/
def boundaryLoop (n : List Char) : Nat → List Char → List Char → List Char
  | _, buf, [] => buf
  | i, buf, r :: rs =>
    boundaryLoop n (i + 1) (buf ++ (if insertBoundary n i r then ['_', r] else [r])) rs

/-- The word-boundary form of one path segment, as written into `buf` by
`fieldName.Keys` (the `buf2` buffer receives the segment unchanged). -/
def boundarySeg (n : List Char) : List Char := boundaryLoop n 0 [] n

/-- Model of Go `strings.ToLower` (ASCII). -/
def goToLower (s : List Char) : List Char := s.map Char.toLower

/-- Model of Go `strings.ToUpper` (ASCII). -/
def goToUpper (s : List Char) : List Char := s.map Char.toUpper

/-- `fieldName.Keys` from the source: join the segments with `'_'` into the
word-boundary buffer `buf` (inserting extra underscores per
`insertBoundary`) and the compact buffer `buf2`; collect the lower/upper
variants of both into a set; return the set sorted ascending.  Go's
`map[string]struct{}` plus `sort.Strings` is modelled by `List.dedup`
followed by `List.insertionSort (· ≤ ·)`: both compute the sorted list of
the distinct collected strings, and Go's byte-wise string order agrees
with Lean's `String` order on ASCII. -/
def fieldName.Keys (name : fieldName) : List String :=
  let buf : List Char := List.intercalate ['_'] (name.map (fun part => boundarySeg part.data))
  let buf2 : List Char := List.intercalate ['_'] (name.map String.data)
  let tmp : List (List Char) := List.dedup
    [goToLower buf, goToUpper buf, goToLower buf2, goToUpper buf2]
  (List.insertionSort (· ≤ ·) tmp).map String.mk

/-- The underscore-insertion rule exactly as the specification words it: an
underscore goes inside the segment (hence before a character at position
`i ≥ 1`) immediately before an uppercase letter whose preceding or
following character is lowercase.  This definition follows the spec's
words, to be compared with the source-derived `insertBoundary`. -/
def specClaimInsert (n : List Char) (i : Nat) : Bool :=
  decide (0 < i) && (n.getD i ' ').isUpper &&
    ((n.getD (i - 1) ' ').isLower ||
      (decide (i + 1 < n.length) && (n.getD (i + 1) ' ').isLower))

/-- The word-boundary form a segment would have under the spec's wording of
the insertion rule. -/
def specClaimMark (n : List Char) : List Char :=
  ((List.range n.length).map (fun i =>
    if specClaimInsert n i then ['_', n.getD i ' '] else [n.getD i ' '])).flatten

/-- The insertion rule the source actually implements, stated declaratively:
an underscore goes immediately before the character at position `i` exactly
when `2 ≤ i`, position `i` is not the last position of the segment, the
character there is uppercase, and the preceding or following character is
lowercase. -/
def amendedInsert (n : List Char) (i : Nat) : Bool :=
  decide (2 ≤ i) && decide (i + 1 < n.length) && (n.getD i ' ').isUpper &&
    ((n.getD (i - 1) ' ').isLower || (n.getD (i + 1) ' ').isLower)

/-- The word-boundary form of a segment described declaratively by the
amended insertion rule. -/
def amendedMark (n : List Char) : List Char :=
  ((List.range n.length).map (fun i =>
    if amendedInsert n i then ['_', n.getD i ' '] else [n.getD i ' '])).flatten

/-- The closed universe of leaf value kinds embedded from the converter:
booleans, 64-bit integers, strings and structs (a struct is the list of
its fields' kinds).  The unmarshaler, duration, uint, float, byte-slice,
general-slice and map branches of the source fall outside this universe
(the slice tokenizer is not among the provided sources). -/
inductive Kind where
  | bool
  | int
  | str
  | struct' (fields : List Kind)

/-- A Go value of one of the embedded kinds. -/
inductive GoValue where
  | bool (b : Bool)
  | int (n : Int)
  | str (s : String)
  | struct' (fields : List GoValue)

/-- Accumulate the base-10 value of a digit run; `none` on a non-digit. -/
def decDigits (cs : List Char) : Option Nat :=
  cs.foldl (fun acc c => acc.bind (fun n =>
    if c.isDigit then some (n * 10 + (c.toNat - '0'.toNat)) else none)) (some 0)

/-- Model of Go `strconv.ParseBool`. -/
def goParseBool (str : String) : Except String Bool :=
  if str = "1" ∨ str = "t" ∨ str = "T" ∨ str = "true" ∨ str = "TRUE" ∨ str = "True" then
    .ok true
  else if str = "0" ∨ str = "f" ∨ str = "F" ∨ str = "false" ∨ str = "FALSE" ∨ str = "False" then
    .ok false
  else
    .error ("strconv.ParseBool: parsing \"" ++ str ++ "\": invalid syntax")

/-- Model of Go `strconv.ParseInt(str, 10, 64)`: optional sign, a non-empty
run of decimal digits, 64-bit signed range.  (On a range error Go also
returns the clamped value, but the caller only propagates the error.) -/
def goParseInt (str : String) : Except String Int :=
  let invalid : Except String Int :=
    .error ("strconv.ParseInt: parsing \"" ++ str ++ "\": invalid syntax")
  let range : Except String Int :=
    .error ("strconv.ParseInt: parsing \"" ++ str ++ "\": value out of range")
  let signDigits : Bool × List Char :=
    match str.data with
    | '+' :: rest => (false, rest)
    | '-' :: rest => (true, rest)
    | rest => (false, rest)
  if signDigits.2.isEmpty then invalid
  else
    match decDigits signDigits.2 with
    | none => invalid
    | some n =>
      if signDigits.1 then (if n ≤ 2 ^ 63 then .ok (-(n : Int)) else range)
      else (if n ≤ 2 ^ 63 - 1 then .ok (n : Int) else range)

/-- Go string slicing `s[lo:hi]` on byte indices (ASCII, so byte = char
index): `none` models the runtime out-of-range panic, produced exactly
when `0 ≤ lo ≤ hi ≤ len s` fails. -/
def goStringSlice (s : String) (lo hi : Int) : Option String :=
  if 0 ≤ lo ∧ lo ≤ hi ∧ hi ≤ (s.length : Int) then
    some (String.mk ((s.data.take hi.toNat).drop lo.toNat))
  else none

/-- The outcome of a conversion: a value, a returned Go error, or a
runtime panic from an out-of-range string index. -/
inductive ConvRes (α : Type) where
  | ok (a : α)
  | err (msg : String)
  | outOfRange

mutual

/-- `Field.parseValue` from the source, restricted to the embedded kind
universe (see `Kind`): bool/int parse via `strconv`, string is stored
as-is, and a struct token is handed to `parseStruct`. -/
def parseValue : Kind → String → ConvRes GoValue
  | .bool, str =>
    match goParseBool str with
    | .ok b => .ok (.bool b)
    | .error e => .err e
  | .int, str =>
    match goParseInt str with
    | .ok n => .ok (.int n)
    | .error e => .err e
  | .str, str => .ok (.str str)
  | .struct' ks, token => parseStruct ks token

/-- `Field.parseStruct` from the source (only reached for structs inside a
slice): strip the first and last character of the token
(`token[1:len(token)-1]`, a panic when the token is shorter than 2), split
on commas, fail if the part count differs from the field count, otherwise
convert each part into the corresponding field in order. -/
def parseStruct (ks : List Kind) (token : String) : ConvRes GoValue :=
  match goStringSlice token 1 ((token.length : Int) - 1) with
  | none => .outOfRange
  | some inner =>
    let tokens := inner.splitOn ","
    if tokens.length ≠ ks.length then
      .err ("envconfig: struct token has " ++ toString tokens.length ++
        " fields but struct has " ++ toString ks.length)
    else
      match parseFields ks tokens with
      | .ok vs => .ok (.struct' vs)
      | .err e => .err e
      | .outOfRange => .outOfRange

/-- The field loop of `Field.parseStruct`: convert each token into the
corresponding field kind, stopping at the first failure.  (The case of a
non-empty kind list with no tokens left is unreachable: the caller has
checked that the counts agree.) -/
def parseFields : List Kind → List String → ConvRes (List GoValue)
  | [], _ => .ok []
  | _ :: _, [] => .ok []
  | k :: ks, t :: ts =>
    match parseValue k t with
    | .ok v =>
      match parseFields ks ts with
      | .ok vs => .ok (v :: vs)
      | .err e => .err e
      | .outOfRange => .outOfRange
    | .err e => .err e
    | .outOfRange => .outOfRange

end

/-- `Field` from the source.  The `reflect.Value` write target is modelled
by the field's `kind`; writes are reported as explicit results rather than
as mutations of shared state. -/
structure Field where
  name : fieldName
  kind : Kind
  strValue : String := ""
  customName : String := ""
  defaultVal : String := ""
  note : String := ""
  optional : Bool := false
  allowUnexported : Bool := false

/-- `Field.Keys` from the source: the custom override name alone when set,
the derived keys otherwise. -/
def Field.Keys (fld : Field) : List String :=
  if fld.customName ≠ "" then [fld.customName] else fieldName.Keys fld.name

/-- The process environment; Go's `os.Getenv` returns `""` for unset keys. -/
abbrev Env := String → String

/-- The key loop of `Field.readValue`:
`str = os.Getenv(key); if str != "" break`. -/
def readValueLoop (env : Env) : String → List String → String
  | str, [] => str
  | _, key :: keys =>
    let str := env key
    if str ≠ "" then str else readValueLoop env str keys

instance {ε α : Type} [DecidableEq ε] [DecidableEq α] : DecidableEq (Except ε α) := fun a b =>
  match a, b with
  | .ok x, .ok y =>
    if h : x = y then isTrue (by rw [h]) else isFalse (fun hh => h (Except.ok.inj hh))
  | .error x, .error y =>
    if h : x = y then isTrue (by rw [h]) else isFalse (fun hh => h (Except.error.inj hh))
  | .ok _, .error _ => isFalse (fun hh => Except.noConfusion hh)
  | .error _, .ok _ => isFalse (fun hh => Except.noConfusion hh)

/-- `Field.readValue` from the source. -/
def Field.readValue (env : Env) (fld : Field) : Except String String :=
  let keys := fld.Keys
  let str := readValueLoop env "" keys
  if str ≠ "" then .ok str
  else if fld.defaultVal ≠ "" then .ok fld.defaultVal
  else if fld.optional then .ok ""
  else .error ("envconfig: keys " ++ String.intercalate ", " keys ++ " not found")

/-- Value resolution exactly as the specification words it: with a custom
override name only that key is consulted; otherwise the first derived key
(in the deriver's returned order) whose environment value is non-empty is
used; then the non-empty default; then an optional field resolves empty;
otherwise a keys-not-found error naming every attempted key.  This
definition follows the spec's words, to be compared with the
source-derived `Field.readValue`. -/
def specResolve (env : Env) (fld : Field) : Except String String :=
  let keys := if fld.customName ≠ "" then [fld.customName] else fieldName.Keys fld.name
  match keys.find? (fun k => env k != "") with
  | some k => .ok (env k)
  | none =>
    if fld.defaultVal ≠ "" then .ok fld.defaultVal
    else if fld.optional then .ok ""
    else .error ("envconfig: keys " ++ String.intercalate ", " keys ++ " not found")

/-- An error from the populate phase: a returned Go error value, or a
runtime panic from an out-of-range string index. -/
inductive GoErr where
  | msg (s : String)
  | outOfRange
deriving DecidableEq, Repr

/-- `Field.setField` from the source, on the embedded kind universe (the
byte-slice and general-slice branches of its switch concern kinds outside
the universe, so the switch reduces to the default branch `parseValue`).
Returns the field after its `strValue` mutation, the value written to the
write target (`none` = target untouched), and the error if any. -/
def Field.setField (env : Env) (fld : Field) : Field × Option GoValue × Option GoErr :=
  match fld.readValue env with
  | .error e => (fld, none, some (.msg e))
  | .ok str =>
    if str.length = 0 ∧ fld.optional then (fld, none, none)
    else
      let fld' := { fld with strValue := str }
      match parseValue fld.kind str with
      | .ok v => (fld', some v, none)
      | .err m => (fld', none, some (.msg m))
      | .outOfRange => (fld', none, some .outOfRange)

/-- `Field.setValue` from the source: `setField` applied to the field's
own write target. -/
def Field.setValue (env : Env) (fld : Field) : Field × Option GoValue × Option GoErr :=
  fld.setField env

/-- `ConfInfo` from the source: the list of discovered fields. -/
abbrev ConfInfo := List Field

/-- `ConfInfo.Read` from the source: call `setValue` on each field in list
order and return at the first error.  The in-place mutation of the
caller's structure is modelled by the returned write log (field path ↦
written value, in write order); the returned field list carries the
`strValue` mutations. -/
def ConfInfo.Read (env : Env) : ConfInfo → List (fieldName × GoValue) × ConfInfo × Option GoErr
  | [] => ([], [], none)
  | fld :: rest =>
    let res := fld.setValue env
    let ws : List (fieldName × GoValue) :=
      match res.2.1 with
      | some v => [(fld.name, v)]
      | none => []
    match res.2.2 with
    | some err => (ws, res.1 :: rest, some err)
    | none =>
      let tailRes := ConfInfo.Read env rest
      (ws ++ tailRes.1, res.1 :: tailRes.2.1, tailRes.2.2)

/-- `tag` from the source. -/
structure tag where
  customName : String := ""
  optional : Bool := false
  skip : Bool := false
  defaultVal : String := ""
  note : String := ""
deriving DecidableEq, Repr

/-- The rune loop of `parseTag`: split on commas, except that a backslash
escapes the character after it and is itself dropped.  `cur` is the token
being accumulated (Go appends to the last element of `tokens`). -/
def tagTokenLoop (escape : Bool) (cur : List Char) : List Char → List String
  | [] => [String.mk cur]
  | r :: rs =>
    if !escape ∧ r = '\\' then tagTokenLoop true cur rs
    else if !escape ∧ r = ',' then String.mk cur :: tagTokenLoop false [] rs
    else tagTokenLoop false (cur ++ [r]) rs

/-- The token list `parseTag` builds from a tag string. -/
def tagTokens (s : String) : List String := tagTokenLoop false [] s.data

/-- Model of Go `strings.HasPrefix`. -/
def goHasPrefix (s pre : String) : Bool := pre.data.isPrefixOf s.data

/-- Model of Go `strings.TrimPrefix`. -/
def goTrimPrefix (s pre : String) : String :=
  if goHasPrefix s pre then String.mk (s.data.drop pre.data.length) else s

/-- The classification switch of `parseTag`, applied to one token. -/
def applyToken (t : tag) (v : String) : tag :=
  if v = "-" then { t with skip := true }
  else if v = "optional" then { t with optional := true }
  else if goHasPrefix v "default=" then { t with defaultVal := goTrimPrefix v "default=" }
  else if goHasPrefix v "note=" then { t with note := goTrimPrefix v "note=" }
  else { t with customName := v }

/-- `parseTag` from the source: tokenize, then classify each token in
order. -/
def parseTag (s : String) : tag :=
  (tagTokens s).foldl applyToken {}

mutual

/-- A Go type as the walker sees it: a pointer, a struct with declared
fields, or a leaf of one of the embedded kinds. -/
inductive GoType where
  | ptr (t : GoType)
  | strukt (fields : GoStructFields)
  | leaf (k : Kind)

/-- The declared fields of a struct type, in declaration order: structural
name, `envconfig` tag string, whether the field is settable (exported),
and its type. -/
inductive GoStructFields where
  | nil
  | cons (fname tagStr : String) (canSet : Bool) (ty : GoType) (rest : GoStructFields)

end

/-- `context` from the source (the `config` accumulator is modelled by the
returned descriptor list). -/
structure Context where
  name : fieldName
  optional : Bool
  allowUnexported : Bool
deriving DecidableEq, Repr

/-- The error the walker can produce (`ErrUnexportedField`). -/
inductive WalkErr where
  | unexportedField
deriving DecidableEq, Repr

mutual

/-- The `doRead` switch of `readStruct` for one non-skipped field: a
pointer is allocated if nil and dereferenced, restarting the switch; a
struct recurses into `readStruct` with the field's name appended and
optional-ness propagated; any other kind appends one descriptor carrying
the parsed tag's metadata. -/
def readStructField (ctx : Context) (fname : String) (t : tag) :
    GoType → Except WalkErr (List Field)
  | .ptr ty => readStructField ctx fname t ty
  | .strukt fs =>
    readStruct { name := ctx.name ++ [fname], optional := ctx.optional || t.optional,
                 allowUnexported := ctx.allowUnexported } fs
  | .leaf k =>
    .ok [{ name := ctx.name ++ [fname], kind := k, customName := t.customName,
           defaultVal := t.defaultVal, note := t.note,
           optional := ctx.optional || t.optional,
           allowUnexported := ctx.allowUnexported }]

/-- `readStruct` from the source: walk the declared fields in order; parse
each field's tag; a skip-tagged or non-settable field is passed over,
except that a non-settable field without the allow-unexported setting
aborts with `ErrUnexportedField`; otherwise process the field's type and
continue, stopping at the first error. -/
def readStruct (ctx : Context) : GoStructFields → Except WalkErr (List Field)
  | .nil => .ok []
  | .cons fname tagStr canSet ty rest =>
    let t := parseTag tagStr
    if t.skip || !canSet then
      if !canSet && !ctx.allowUnexported then .error .unexportedField
      else readStruct ctx rest
    else
      match readStructField ctx fname t ty with
      | .error e => .error e
      | .ok flds =>
        match readStruct ctx rest with
        | .error e => .error e
        | .ok restL => .ok (flds ++ restL)

end

/-- Append on the walker's field lists (used to state where a field sits
inside a struct's declaration list). -/
def GoStructFields.append : GoStructFields → GoStructFields → GoStructFields
  | .nil, gs => gs
  | .cons n t c ty rest, gs => .cons n t c ty (rest.append gs)

end Envconfig

namespace Envconfig

lemma insertBoundary_eq_amended (n : List Char) (i : Nat) :
    insertBoundary n i (n.getD i ' ') = amendedInsert n i := by
  simp only [insertBoundary, prevOrNextLower, amendedInsert]
  by_cases h2 : 2 ≤ i
  · have e0 : decide (i - 1 > 0) = true := by simp only [decide_eq_true_eq]; omega
    have e1 : decide (i > 0) = true := by simp only [decide_eq_true_eq]; omega
    have e2 : decide (2 ≤ i) = true := by simp only [decide_eq_true_eq]; omega
    simp only [e0, e1, e2, Bool.true_and, Bool.and_true]
    cases hU : (n.getD i ' ').isUpper <;> cases hL : decide (i + 1 < n.length) <;>
      simp [Bool.or_comm, Bool.and_comm, Bool.and_left_comm]
  · have e0 : decide (i - 1 > 0) = false := by simp only [decide_eq_false_iff_not]; omega
    have e2 : decide (2 ≤ i) = false := by simp only [decide_eq_false_iff_not]; omega
    simp only [e0, e2, Bool.false_and, Bool.and_false]

lemma boundaryLoop_eq (n : List Char) : ∀ (rest : List Char) (i : Nat) (buf : List Char),
    rest = n.drop i →
    boundaryLoop n i buf rest = buf ++ ((List.range' i rest.length).map (fun j =>
      if insertBoundary n j (n.getD j ' ') then ['_', n.getD j ' '] else [n.getD j ' '])).flatten
  | [], i, buf, _ => by simp [boundaryLoop]
  | r :: rs, i, buf, h => by
    have hg : n[i]? = some r := by
      have h0 := List.getElem?_drop n i 0
      rw [← h] at h0
      simpa using h0.symm
    have hget : n.getD i ' ' = r := by
      rw [List.getD_eq_getElem?_getD, hg]
      rfl
    have htail : rs = n.drop (i + 1) := by
      rw [← List.tail_drop, ← h]
      rfl
    rw [boundaryLoop, boundaryLoop_eq n rs (i + 1) _ htail, ← hget]
    simp only [List.length_cons, List.range'_succ _ _ 1, List.map_cons, List.flatten_cons,
      List.append_assoc]

/-- The word-boundary segment transform equals the declarative amended rule. -/
lemma boundarySeg_eq_amendedMark (n : List Char) : boundarySeg n = amendedMark n := by
  rw [boundarySeg, boundaryLoop_eq n n 0 [] (by simp), amendedMark, List.range_eq_range']
  rw [List.nil_append]
  congr 1
  apply List.map_congr_left
  intro j _
  rw [insertBoundary_eq_amended]

lemma intercalate_singleton (sep x : List Char) : List.intercalate sep [x] = x := by
  simp [List.intercalate]

lemma keys_def (name : fieldName) :
    fieldName.Keys name = (List.insertionSort (· ≤ ·) (List.dedup
      [goToLower (List.intercalate ['_'] (name.map (fun part => boundarySeg part.data))),
       goToUpper (List.intercalate ['_'] (name.map (fun part => boundarySeg part.data))),
       goToLower (List.intercalate ['_'] (name.map String.data)),
       goToUpper (List.intercalate ['_'] (name.map String.data))])).map String.mk := rfl

lemma sorted_nodup_of_sortdedup (L : List (List Char)) :
    ((List.insertionSort (· ≤ ·) (List.dedup L)).map String.mk).Sorted (· ≤ ·) ∧
    ((List.insertionSort (· ≤ ·) (List.dedup L)).map String.mk).Nodup ∧
    ((List.insertionSort (· ≤ ·) (List.dedup L)).map String.mk).length ≤ L.length := by
  refine ⟨?_, ?_, ?_⟩
  · have hs := List.sorted_insertionSort (α := List Char) (· ≤ ·) (List.dedup L)
    rw [List.Sorted, List.pairwise_map]
    exact hs.imp (fun h => String.le_iff_toList_le.mpr h)
  · exact ((List.perm_insertionSort _ _).nodup_iff.mpr (List.nodup_dedup L)).map
      (fun a b h => congrArg String.data h)
  · rw [List.length_map, (List.perm_insertionSort _ _).length_eq]
    exact (List.dedup_sublist L).length_le

/-- C1: the five worked examples of key derivation: the single-segment
paths `CassandraSslCert` and `CassandraSSLCert` both yield the sorted
4-key list `CASSANDRASSLCERT, CASSANDRA_SSL_CERT, cassandra_ssl_cert,
cassandrasslcert`; the two-segment paths `Cassandra,SslCert` and
`Cassandra,SSLCert` both yield `CASSANDRA_SSLCERT, CASSANDRA_SSL_CERT,
cassandra_ssl_cert, cassandra_sslcert`; and `Name` yields `NAME, name`. -/
theorem keys_worked_examples :
    fieldName.Keys ["CassandraSslCert"] =
      ["CASSANDRASSLCERT", "CASSANDRA_SSL_CERT", "cassandra_ssl_cert", "cassandrasslcert"] ∧
    fieldName.Keys ["CassandraSSLCert"] =
      ["CASSANDRASSLCERT", "CASSANDRA_SSL_CERT", "cassandra_ssl_cert", "cassandrasslcert"] ∧
    fieldName.Keys ["Cassandra", "SslCert"] =
      ["CASSANDRA_SSLCERT", "CASSANDRA_SSL_CERT", "cassandra_ssl_cert", "cassandra_sslcert"] ∧
    fieldName.Keys ["Cassandra", "SSLCert"] =
      ["CASSANDRA_SSLCERT", "CASSANDRA_SSL_CERT", "cassandra_ssl_cert", "cassandra_sslcert"] ∧
    fieldName.Keys ["Name"] = ["NAME", "name"] :=
  ⟨by decide, by decide, by decide, by decide, by decide⟩

/-- C3 counterexample: on the segment `aBc` the source inserts no
underscore (the uppercase `B` is at position 1, and the implementation's
guard `i-1 > 0` requires position at least 2), while the claim's rule — an
underscore before every uppercase letter with a lowercase neighbour —
would produce `a_Bc`.  So the word-boundary form produced by key
derivation differs from the claim's rule. -/
theorem keys_boundary_claim_counterexample :
    boundarySeg "aBc".data ≠ specClaimMark "aBc".data ∧
    boundarySeg "aBc".data = "aBc".data ∧ specClaimMark "aBc".data = "a_Bc".data := by
  refine ⟨by decide, by decide, by decide⟩

/-- C3 amended: in the word-boundary form, an extra underscore is inserted
immediately before the character at position `i` of a segment exactly when
`2 ≤ i`, `i` is not the segment's last position, the character there is an
uppercase letter, and the preceding or the following character is
lowercase — and nowhere else. -/
theorem keys_boundary_amended (n : List Char) : boundarySeg n = amendedMark n :=
  boundarySeg_eq_amendedMark n

end Envconfig

namespace Envconfig

/-- C8 counterexample: the single-segment path `123` has no internal
casing boundary (its word-boundary form is itself), yet key derivation
returns a single key, not 2: the all-uppercase and all-lowercase variants
coincide because the name contains no cased letter. -/
theorem keys_two_counterexample :
    boundarySeg "123".data = "123".data ∧ fieldName.Keys ["123"] = ["123"] :=
  ⟨by decide, by decide⟩

/-- C8 amended: for every path, the derived key list is duplicate-free,
sorted ascending, and of length at most 4; a single-segment name with no
internal casing boundary (its word-boundary form is itself) that contains
at least one cased character (lowercasing and uppercasing it differ)
yields exactly 2 keys. -/
theorem keys_sorted_nodup_amended :
    (∀ name : fieldName,
      (fieldName.Keys name).Sorted (· ≤ ·) ∧ (fieldName.Keys name).Nodup ∧
      (fieldName.Keys name).length ≤ 4) ∧
    (∀ s : String, boundarySeg s.data = s.data → goToLower s.data ≠ goToUpper s.data →
      (fieldName.Keys [s]).length = 2) := by
  constructor
  · intro name
    rw [keys_def]
    exact sorted_nodup_of_sortdedup _
  · intro s h1 h2
    rw [keys_def]
    rw [List.length_map, (List.perm_insertionSort _ _).length_eq]
    simp only [List.map_cons, List.map_nil, intercalate_singleton, h1]
    rw [List.dedup_cons_of_mem (by simp), List.dedup_cons_of_mem (by simp),
      List.dedup_cons_of_not_mem (by simp [h2]), List.dedup_cons_of_not_mem (by simp),
      List.dedup_nil]
    rfl

/-- C8 witness for the amended theorem's hypotheses, at the path `Name`. -/
theorem keys_sorted_nodup_amended_witness :
    boundarySeg "Name".data = "Name".data ∧ goToLower "Name".data ≠ goToUpper "Name".data ∧
    (fieldName.Keys ["Name"]).length = 2 :=
  ⟨by decide, by decide, keys_sorted_nodup_amended.2 "Name" (by decide) (by decide)⟩

end Envconfig

namespace Envconfig

lemma readValueLoop_eq_find (env : Env) (keys : List String) :
    readValueLoop env "" keys = ((keys.find? (fun k => env k != "")).map env).getD "" := by
  induction keys with
  | nil => rfl
  | cons k ks ih =>
    rw [readValueLoop, List.find?]
    by_cases h : env k = ""
    · have hb : (env k != "") = false := by simp [h]
      simp [h, hb, ih]
    · have hb : (env k != "") = true := by simpa using h
      simp [h, hb]

/-- C2: value resolution follows the specified order: the source's
`Field.readValue` agrees with `specResolve` (the spec's wording: with a
custom override name only that key is consulted, otherwise the first
derived key with a non-empty environment value, then the non-empty
default, then empty for an optional field, otherwise a keys-not-found
error naming every attempted key); and a custom-named field reports
exactly the single override key. -/
theorem readValue_resolution_order (env : Env) (fld : Field) :
    fld.readValue env = specResolve env fld ∧
    (fld.customName ≠ "" → fld.Keys = [fld.customName]) := by
  constructor
  · simp only [Field.readValue, specResolve, readValueLoop_eq_find]
    have hk : (if fld.customName ≠ "" then [fld.customName] else fieldName.Keys fld.name) =
        fld.Keys := rfl
    rw [hk]
    cases hf : fld.Keys.find? (fun k => env k != "") with
    | none => simp
    | some k =>
      have hne : env k ≠ "" := by
        have := List.find?_some hf
        simpa using this
      simp [hne]
  · intro h
    rw [Field.Keys, if_pos h]

/-- C2 witness: the theorem applied to a custom-named field in an empty
environment. -/
theorem readValue_resolution_order_witness :
    Field.readValue (fun _ => "") ⟨["A"], .str, "", "K", "", "", false, false⟩ =
      specResolve (fun _ => "") ⟨["A"], .str, "", "K", "", "", false, false⟩ ∧
    Field.Keys ⟨["A"], .str, "", "K", "", "", false, false⟩ = ["K"] :=
  ⟨(readValue_resolution_order (fun _ => "") _).1,
   (readValue_resolution_order (fun _ => "") ⟨["A"], .str, "", "K", "", "", false, false⟩).2
     (by decide)⟩

lemma readValueLoop_empty (env : Env) (keys : List String)
    (h : ∀ k ∈ keys, env k = "") : readValueLoop env "" keys = "" := by
  induction keys with
  | nil => rfl
  | cons k ks ih =>
    rw [readValueLoop]
    have hk : env k = "" := h k (List.mem_cons_self k ks)
    simp only [hk, ne_eq, not_true_eq_false, if_false]
    exact ih (fun k' hk' => h k' (List.mem_cons_of_mem _ hk'))

/-- C5: an optional field whose keys all resolve to empty environment
values and whose default is empty populates without error, skips
conversion, writes nothing to the target, and leaves the recorded value
string (and the whole descriptor) unchanged. -/
theorem optional_empty_frame (env : Env) (fld : Field)
    (hkeys : ∀ k ∈ fld.Keys, env k = "") (hdef : fld.defaultVal = "")
    (hopt : fld.optional = true) :
    fld.setField env = (fld, none, none) := by
  have hrv : fld.readValue env = .ok "" := by
    simp only [Field.readValue, readValueLoop_empty env _ hkeys, hdef, hopt]
    simp
  rw [Field.setField, hrv]
  simp [hopt]

/-- C5 witness: an optional int-typed field `Opt` in an empty environment
(a failing conversion kind, showing conversion is skipped). -/
theorem optional_empty_frame_witness :
    (∀ k ∈ Field.Keys ⟨["Opt"], .int, "", "", "", "", true, false⟩,
      (fun (_ : String) => ("" : String)) k = "") ∧
    Field.setField (fun _ => "") ⟨["Opt"], .int, "", "", "", "", true, false⟩ =
      (⟨["Opt"], .int, "", "", "", "", true, false⟩, none, none) :=
  ⟨by decide, optional_empty_frame (fun _ => "") _ (by decide) rfl rfl⟩

end Envconfig

namespace Envconfig

lemma Read_append (env : Env) (xs ys : ConfInfo) :
    ConfInfo.Read env (xs ++ ys) =
      match ConfInfo.Read env xs with
      | (ws, xs', some e) => (ws, xs' ++ ys, some e)
      | (ws, xs', none) =>
        (ws ++ (ConfInfo.Read env ys).1, xs' ++ (ConfInfo.Read env ys).2.1,
         (ConfInfo.Read env ys).2.2) := by
  induction xs with
  | nil => simp [ConfInfo.Read]
  | cons f fs ih =>
    rw [List.cons_append]
    simp only [ConfInfo.Read]
    rcases hsv : (f.setValue env).2.2 with _ | err
    · simp only [hsv, ih]
      rcases hr : ConfInfo.Read env fs with ⟨tws, tl, te⟩
      cases te <;> simp [List.append_assoc]
    · simp [hsv]

/-- C4: `ConfInfo.Read` is fail-fast: when every descriptor of `pre`
populates without error and `bad` fails, reading `pre ++ bad :: post`
returns `bad`'s error, the write log of `pre` (earlier writes retained)
extended by whatever `bad` wrote, and the descriptors after `bad` exactly
as given — no later descriptor is attempted. -/
theorem read_failfast (env : Env) (pre : ConfInfo) (bad : Field) (post : ConfInfo)
    (ws : List (fieldName × GoValue)) (pre' : ConfInfo) (e : GoErr)
    (hpre : ConfInfo.Read env pre = (ws, pre', none))
    (hbad : (bad.setValue env).2.2 = some e) :
    ConfInfo.Read env (pre ++ bad :: post) =
      (ws ++ (match (bad.setValue env).2.1 with
              | some v => [(bad.name, v)]
              | none => ([] : List (fieldName × GoValue))),
       pre' ++ (bad.setValue env).1 :: post, some e) := by
  have hb : ConfInfo.Read env (bad :: post) =
      ((match (bad.setValue env).2.1 with
        | some v => [(bad.name, v)]
        | none => ([] : List (fieldName × GoValue))),
       (bad.setValue env).1 :: post, some e) := by
    simp only [ConfInfo.Read, hbad]
  rw [Read_append env pre (bad :: post), hpre, hb]

end Envconfig

namespace Envconfig

/-- C4 witness: a three-field list where `RemoteHost` converts from the
environment, `Port` fails with keys-not-found and `Other` is never
attempted; the read stops at `Port`, keeping `RemoteHost`'s write. -/
theorem read_failfast_witness :
    ConfInfo.Read (fun k => if k = "REMOTE_HOST" then "localhost" else "")
      ([⟨["RemoteHost"], .str, "", "", "", "", false, false⟩] ++
        ⟨["Port"], .int, "", "", "", "", false, false⟩ ::
          [⟨["Other"], .str, "", "", "", "", false, false⟩]) =
      ([(["RemoteHost"], GoValue.str "localhost")],
       [⟨["RemoteHost"], .str, "localhost", "", "", "", false, false⟩] ++
         ⟨["Port"], .int, "", "", "", "", false, false⟩ ::
           [⟨["Other"], .str, "", "", "", "", false, false⟩],
       some (.msg "envconfig: keys PORT, port not found")) := by
  have h1 : Field.readValue (fun k => if k = "REMOTE_HOST" then "localhost" else "")
      ⟨["RemoteHost"], .str, "", "", "", "", false, false⟩ = .ok "localhost" := by decide
  have h2 : Field.readValue (fun k => if k = "REMOTE_HOST" then "localhost" else "")
      ⟨["Port"], .int, "", "", "", "", false, false⟩ =
      .error "envconfig: keys PORT, port not found" := by decide
  have hpv : parseValue .str "localhost" = .ok (.str "localhost") := by simp [parseValue]
  have hs1 : Field.setValue (fun k => if k = "REMOTE_HOST" then "localhost" else "")
      ⟨["RemoteHost"], .str, "", "", "", "", false, false⟩ =
      (⟨["RemoteHost"], .str, "localhost", "", "", "", false, false⟩,
       some (.str "localhost"), none) := by
    simp only [Field.setValue, Field.setField, h1, hpv]
    simp
  have hs2 : Field.setValue (fun k => if k = "REMOTE_HOST" then "localhost" else "")
      ⟨["Port"], .int, "", "", "", "", false, false⟩ =
      (⟨["Port"], .int, "", "", "", "", false, false⟩, none,
       some (.msg "envconfig: keys PORT, port not found")) := by
    simp only [Field.setValue, Field.setField, h2]
  have hpre : ConfInfo.Read (fun k => if k = "REMOTE_HOST" then "localhost" else "")
      [⟨["RemoteHost"], .str, "", "", "", "", false, false⟩] =
      ([(["RemoteHost"], GoValue.str "localhost")],
       [⟨["RemoteHost"], .str, "localhost", "", "", "", false, false⟩], none) := by
    simp only [ConfInfo.Read, hs1]
    simp
  have hbad : (Field.setValue (fun k => if k = "REMOTE_HOST" then "localhost" else "")
      ⟨["Port"], .int, "", "", "", "", false, false⟩).2.2 =
      some (.msg "envconfig: keys PORT, port not found") := by rw [hs2]
  have h := read_failfast (fun k => if k = "REMOTE_HOST" then "localhost" else "")
    [⟨["RemoteHost"], .str, "", "", "", "", false, false⟩]
    ⟨["Port"], .int, "", "", "", "", false, false⟩
    [⟨["Other"], .str, "", "", "", "", false, false⟩]
    [(["RemoteHost"], GoValue.str "localhost")]
    [⟨["RemoteHost"], .str, "localhost", "", "", "", false, false⟩]
    (.msg "envconfig: keys PORT, port not found") hpre hbad
  rw [hs2] at h
  simpa using h

end Envconfig

namespace Envconfig

lemma tagTokenLoop_plain (cs : List Char) (cur rest : List Char)
    (h1 : '\\' ∉ cs) (h2 : ',' ∉ cs) :
    tagTokenLoop false cur (cs ++ rest) = tagTokenLoop false (cur ++ cs) rest := by
  induction cs generalizing cur with
  | nil => simp
  | cons c cs' ih =>
    have hc1 : ¬ c = '\\' := fun h => h1 (by simp [h])
    have hc2 : ¬ c = ',' := fun h => h2 (by simp [h])
    rw [List.cons_append, tagTokenLoop]
    simp only [Bool.not_false, true_and, hc1, hc2, if_false]
    rw [ih (cur ++ [c]) (fun h => h1 (List.mem_cons_of_mem _ h))
        (fun h => h2 (List.mem_cons_of_mem _ h))]
    simp

lemma applyToken_skip (t : tag) (v : String) :
    (applyToken t v).skip = (t.skip || (v == "-")) := by
  rw [applyToken]
  split_ifs with h1 h2 h3 h4 <;> simp [h1]

lemma applyToken_optional (t : tag) (v : String) :
    (applyToken t v).optional = (t.optional || (v == "optional")) := by
  rw [applyToken]
  split_ifs with h1 h2 h3 h4 <;> simp [*]

lemma foldl_applyToken_skip (ts : List String) : ∀ t : tag,
    ((ts.foldl applyToken t).skip = true ↔ (t.skip = true ∨ "-" ∈ ts)) := by
  induction ts with
  | nil => intro t; simp
  | cons v ts' ih =>
    intro t
    rw [List.foldl_cons, ih, applyToken_skip]
    simp only [Bool.or_eq_true, beq_iff_eq, List.mem_cons]
    constructor
    · rintro ((h | h) | h)
      · exact Or.inl h
      · exact Or.inr (Or.inl h.symm)
      · exact Or.inr (Or.inr h)
    · rintro (h | h | h)
      · exact Or.inl (Or.inl h)
      · exact Or.inl (Or.inr h.symm)
      · exact Or.inr h

lemma foldl_applyToken_optional (ts : List String) : ∀ t : tag,
    ((ts.foldl applyToken t).optional = true ↔ (t.optional = true ∨ "optional" ∈ ts)) := by
  induction ts with
  | nil => intro t; simp
  | cons v ts' ih =>
    intro t
    rw [List.foldl_cons, ih, applyToken_optional]
    simp only [Bool.or_eq_true, beq_iff_eq, List.mem_cons]
    constructor
    · rintro ((h | h) | h)
      · exact Or.inl h
      · exact Or.inr (Or.inl h.symm)
      · exact Or.inr (Or.inr h)
    · rintro (h | h | h)
      · exact Or.inl (Or.inl h)
      · exact Or.inl (Or.inr h.symm)
      · exact Or.inr h

/-- C9: tag parsing splits the annotation on commas except that a
backslash escapes the character after it (so `default=`/`note=` values
may contain commas): an escape-free comma-free prefix followed by a bare
comma starts a new token, while a backslash-comma continues the current
token with a literal comma and drops the backslash; a `-` token sets
skip, an `optional` token sets optional, and the worked example shows all
five directive forms, the custom-name fallback included. -/
theorem parseTag_directives :
    (∀ a b : String, '\\' ∉ a.data → ',' ∉ a.data →
      tagTokens (a ++ "," ++ b) = a :: tagTokens b) ∧
    (∀ a b : String, '\\' ∉ a.data → ',' ∉ a.data →
      tagTokens (a ++ "\\," ++ b) = tagTokenLoop false (a.data ++ [',']) b.data) ∧
    (∀ s : String, ((parseTag s).skip = true ↔ "-" ∈ tagTokens s)) ∧
    (∀ s : String, ((parseTag s).optional = true ↔ "optional" ∈ tagTokens s)) ∧
    parseTag "myKey,optional,default=a\\,b,note=c" = ⟨"myKey", true, false, "a,b", "c"⟩ ∧
    parseTag "-" = ⟨"", false, true, "", ""⟩ := by
  refine ⟨?_, ?_, ?_, ?_, by decide, by decide⟩
  · intro a b ha1 ha2
    rw [tagTokens, String.data_append, String.data_append, List.append_assoc,
      tagTokenLoop_plain a.data [] (("," : String).data ++ b.data) ha1 ha2]
    rw [List.singleton_append, tagTokenLoop]
    simp [tagTokens]
  · intro a b ha1 ha2
    rw [tagTokens, String.data_append, String.data_append, List.append_assoc,
      tagTokenLoop_plain a.data [] (("\\," : String).data ++ b.data) ha1 ha2]
    rw [List.cons_append, List.singleton_append, tagTokenLoop]
    simp only [Bool.not_false, true_and, if_pos rfl]
    rw [tagTokenLoop]
    simp
  · intro s
    rw [parseTag, foldl_applyToken_skip]
    simp
  · intro s
    rw [parseTag, foldl_applyToken_optional]
    simp

/-- C9 witness: the splitting and escaping clauses applied to concrete
prefixes, and the skip clause at a concrete tag. -/
theorem parseTag_directives_witness :
    tagTokens ("ab" ++ "," ++ "cd") = "ab" :: tagTokens "cd" ∧
    tagTokens ("ab" ++ "\\," ++ "cd") = tagTokenLoop false ("ab".data ++ [',']) "cd".data ∧
    ((parseTag "x,-").skip = true ↔ "-" ∈ tagTokens "x,-") :=
  ⟨parseTag_directives.1 "ab" "cd" (by decide) (by decide),
   parseTag_directives.2.1 "ab" "cd" (by decide) (by decide),
   parseTag_directives.2.2.1 "x,-"⟩

end Envconfig

namespace Envconfig

/-- C6: a skip-tagged (settable) field contributes nothing to the walk:
wherever it sits in a struct's declaration list, the walk's result is the
same as if the field were absent — no descriptor is registered for it, no
descent into it happens even when it is a nested structure, and (since
the walk never touches the environment at all) it is never queried
against the environment. -/
lemma skip_append_aux (ctx : Context) (fname tagStr : String) (ty : GoType)
    (hskip : (parseTag tagStr).skip = true) :
    ∀ (pre post : GoStructFields),
      readStruct ctx (pre.append (.cons fname tagStr true ty post)) =
        readStruct ctx (pre.append post)
  | .nil, post => by
    simp only [GoStructFields.append, readStruct]
    simp [hskip]
  | .cons n t c ty' rest, post => by
    simp only [GoStructFields.append, readStruct,
      skip_append_aux ctx fname tagStr ty hskip rest post]

theorem skip_contributes_nothing (ctx : Context) (fname tagStr : String) (ty : GoType)
    (pre post : GoStructFields) (hskip : (parseTag tagStr).skip = true) :
    readStruct ctx (pre.append (.cons fname tagStr true ty post)) =
      readStruct ctx (pre.append post) :=
  skip_append_aux ctx fname tagStr ty hskip pre post

/-- C6 witness: a skip-tagged nested struct between no fields and one
kept leaf field. -/
theorem skip_contributes_nothing_witness :
    (parseTag "-").skip = true ∧
    readStruct ⟨[], false, false⟩
      (GoStructFields.append .nil
        (.cons "Skipped" "-" true (.strukt (.cons "Inner" "" true (.leaf .str) .nil))
          (.cons "Kept" "" true (.leaf .str) .nil))) =
      readStruct ⟨[], false, false⟩
        (GoStructFields.append .nil (.cons "Kept" "" true (.leaf .str) .nil)) :=
  ⟨by decide,
   skip_contributes_nothing ⟨[], false, false⟩ "Skipped" "-"
     (.strukt (.cons "Inner" "" true (.leaf .str) .nil)) .nil
     (.cons "Kept" "" true (.leaf .str) .nil) (by decide)⟩

/-- C7: a non-settable (unexported) field makes the walk fail immediately
with the `UnexportedField` error when the allow-unexported setting is
off, and is silently passed over (no descriptor, no error) when it is on
— for any tag string, in particular regardless of a skip directive. -/
theorem unexported_field_walk (ctx : Context) (fname tagStr : String) (ty : GoType)
    (rest : GoStructFields) :
    (ctx.allowUnexported = false →
      readStruct ctx (.cons fname tagStr false ty rest) = .error .unexportedField) ∧
    (ctx.allowUnexported = true →
      readStruct ctx (.cons fname tagStr false ty rest) = readStruct ctx rest) := by
  constructor <;> intro h <;> simp [readStruct, h]

/-- C7 witness: both settings at concrete structs, the allowed case with
a skip-tagged unexported field. -/
theorem unexported_field_walk_witness :
    readStruct ⟨[], false, false⟩ (.cons "x" "" false (.leaf .str) .nil) =
      .error .unexportedField ∧
    readStruct ⟨[], false, true⟩ (.cons "x" "-" false (.leaf .str) .nil) = .ok [] := by
  constructor
  · exact (unexported_field_walk ⟨[], false, false⟩ "x" "" (.leaf .str) .nil).1 rfl
  · have h := (unexported_field_walk ⟨[], false, true⟩ "x" "-" (.leaf .str) .nil).2 rfl
    rw [h]
    simp [readStruct]

lemma goStringSlice_isSome (token : String) :
    (goStringSlice token 1 ((token.length : Int) - 1)).isSome ↔ 2 ≤ token.length := by
  rw [goStringSlice]
  split_ifs with h
  · simp only [Option.isSome_some, true_iff]
    omega
  · simp only [Option.isSome_none, Bool.false_eq_true, false_iff]
    omega

/-- C10: `parseStruct` (reached for struct-typed targets, e.g. elements
of a slice of structs) starts by stripping the first and last character
of its token via `token[1:len(token)-1]`; that index pair is within
bounds exactly when the token has length at least 2, and for a token of
length 0 or 1 the operation is the out-of-range runtime panic, not a
returned error; `parseValue` on a struct kind is exactly `parseStruct`. -/
theorem parseStruct_short_token (ks : List Kind) :
    (∀ token : String, token.length ≤ 1 → parseStruct ks token = .outOfRange) ∧
    (∀ token : String,
      ((goStringSlice token 1 ((token.length : Int) - 1)).isSome ↔ 2 ≤ token.length)) ∧
    (∀ token : String, parseValue (.struct' ks) token = parseStruct ks token) := by
  refine ⟨?_, ?_, ?_⟩
  · intro token h
    rw [parseStruct]
    have hnone : goStringSlice token 1 ((token.length : Int) - 1) = none := by
      rw [goStringSlice, if_neg]
      rintro ⟨-, h2, -⟩
      omega
    rw [hnone]
  · exact goStringSlice_isSome
  · intro token
    simp [parseValue]

/-- C10 witness: the empty token panics on a one-field struct, the
two-character token is in bounds, and the `parseValue` dispatch at a
concrete token. -/
theorem parseStruct_short_token_witness :
    parseStruct [.str] "" = .outOfRange ∧
    (goStringSlice "ab" 1 ((("ab" : String).length : Int) - 1)).isSome ∧
    parseValue (.struct' [.str]) "x" = parseStruct [.str] "x" :=
  ⟨(parseStruct_short_token [.str]).1 "" (by decide),
   ((parseStruct_short_token [.str]).2.1 "ab").mpr (by decide),
   (parseStruct_short_token [.str]).2.2 "x"⟩

end Envconfig
